import Mathlib

/-!
Verification of the Radius negotiation hub (`src/server/hub.ts`,
`src/negotiation/rules.ts`, `src/protocol/messages.ts`).

The hub's mutable registries (`Map`s and arrays in the source) are embedded as
association lists; every handler of the server becomes a pure function from a
`HubState` (plus the triggering frame, the sending connection and the current
clock value) to a new `HubState` together with the list of frames it sends,
each tagged with the receiving connection's key.  JavaScript string truthiness
(`!s` holds for both `undefined` and `""`) is modelled explicitly wherever the
source relies on it.  Numeric values (`price`, amounts) are embedded as `Rat`;
timestamps (`Date.now()`) as `Nat`, with JavaScript subtraction on them taken
in `Int`.
-/

namespace Radius

/-- Key/value table embedding a JavaScript `Map`: `mapGet` is `Map.get`,
`mapSet` is `Map.set` (replace in place or append), `mapDelete` is
`Map.delete`. -/
abbrev Table (κ α : Type) := List (κ × α)

def mapGet {κ α : Type} [DecidableEq κ] : Table κ α → κ → Option α
  | [], _ => none
  | (k', v) :: rest, k => if k' = k then some v else mapGet rest k

def mapSet {κ α : Type} [DecidableEq κ] : Table κ α → κ → α → Table κ α
  | [], k, v => [(k, v)]
  | (k', v') :: rest, k, v =>
    if k' = k then (k, v) :: rest else (k', v') :: mapSet rest k v

def mapDelete {κ α : Type} [DecidableEq κ] (m : Table κ α) (k : κ) : Table κ α :=
  m.filter (fun p => !decide (p.1 = k))

/-- Number of entries stored under key `k` (a real `Map` always has 0 or 1). -/
def keyCount {κ α : Type} [DecidableEq κ] (m : Table κ α) (k : κ) : Nat :=
  (m.filter (fun p => decide (p.1 = k))).length

/-- The representation invariant of a JavaScript `Map`: keys are distinct. -/
def keysNodup {κ α : Type} (m : Table κ α) : Prop :=
  (m.map Prod.fst).Nodup

instance {κ α : Type} [DecidableEq κ] (m : Table κ α) : Decidable (keysNodup m) := by
  unfold keysNodup; infer_instance

/-! ## Wire frames (`src/protocol/messages.ts`) -/

structure OfferMsg where
  id : String
  price : Rat
  skill : String
  «from» : String
deriving DecidableEq

structure AcceptMsg where
  id : String
  «from» : String
deriving DecidableEq

structure PayMsg where
  id : String
  tx : String
  «from» : String
deriving DecidableEq

structure ChatMsg where
  text : String
  «from» : String
deriving DecidableEq

structure InvoiceMsg where
  id : String
  buyer : String
  seller : String
  price : Rat
  skill : String
  «from» : String
deriving DecidableEq

inductive AnyMsg where
  | OFFER (m : OfferMsg)
  | ACCEPT (m : AcceptMsg)
  | PAY (m : PayMsg)
  | CHAT (m : ChatMsg)
  | INVOICE (m : InvoiceMsg)
deriving DecidableEq

/-- The `t` tag of a frame. -/
inductive MsgKind where
  | OFFER | ACCEPT | PAY | CHAT | INVOICE
deriving DecidableEq

def AnyMsg.t : AnyMsg → MsgKind
  | .OFFER _ => .OFFER
  | .ACCEPT _ => .ACCEPT
  | .PAY _ => .PAY
  | .CHAT _ => .CHAT
  | .INVOICE _ => .INVOICE

/-- The `from` field carried by every frame. -/
def AnyMsg.sender : AnyMsg → String
  | .OFFER m => m.«from»
  | .ACCEPT m => m.«from»
  | .PAY m => m.«from»
  | .CHAT m => m.«from»
  | .INVOICE m => m.«from»

/-! ## Negotiation ledger (`src/negotiation/rules.ts`) -/

structure Invoice where
  id : String
  buyer : String
  seller : String
  price : Rat
  skill : String
  timestamp : Nat
deriving DecidableEq

/-- `validateOffer`: `!offer.id || !offer.skill || offer.price <= 0 || !offer.from`
rejects; an empty string is falsy. -/
def validateOffer (offer : OfferMsg) : Bool :=
  if offer.id = "" ∨ offer.skill = "" ∨ offer.price ≤ 0 ∨ offer.«from» = "" then
    false
  else
    true

/-- `validateAccept`: the offer must exist, and you cannot accept your own
offer. -/
def validateAccept (accept : AcceptMsg) (offer : Option OfferMsg) : Bool :=
  match offer with
  | none => false
  | some offer =>
    if accept.«from» = offer.«from» then false else true

/-- `createInvoice`: builds the invoice from the offer and stores it in
`activeInvoices` under the offer id (the caller supplies `Date.now()`). -/
def createInvoice (offer : OfferMsg) (acceptedBy : String) (now : Nat)
    (activeInvoices : Table String Invoice) : Invoice × Table String Invoice :=
  let invoice : Invoice :=
    { id := offer.id, buyer := offer.«from», seller := acceptedBy,
      price := offer.price, skill := offer.skill, timestamp := now }
  (invoice, mapSet activeInvoices offer.id invoice)

/-- `validatePayment`: the invoice must exist, the payment must come from the
buyer, and a transaction hash must be included (`!pay.tx` is falsy for `""`). -/
def validatePayment (pay : PayMsg) (invoice : Option Invoice) : Bool :=
  match invoice with
  | none => false
  | some invoice =>
    if pay.«from» ≠ invoice.buyer then false
    else if pay.tx = "" then false
    else true

/-- `completeInvoice`: looks the invoice up and deletes it, returning it. -/
def completeInvoice (activeInvoices : Table String Invoice) (invoiceId : String) :
    Option Invoice × Table String Invoice :=
  match mapGet activeInvoices invoiceId with
  | some invoice => (some invoice, mapDelete activeInvoices invoiceId)
  | none => (none, activeInvoices)

/-- `10 * 60 * 1000` — the fixed invoice TTL in milliseconds. -/
def expiryTime : Nat := 10 * 60 * 1000

/-- `cleanupExpiredInvoices`: deletes every invoice with
`now - invoice.timestamp > expiryTime` (JavaScript subtraction, taken in `Int`). -/
def cleanupExpiredInvoices (now : Nat) (activeInvoices : Table String Invoice) :
    Table String Invoice :=
  activeInvoices.filter
    (fun p => !decide ((now : Int) - (p.2.timestamp : Int) > (expiryTime : Int)))

/-! ## Server state (`src/server/hub.ts`) -/

/-- `connectionType: 'agent' | 'spectator'`. -/
inductive ConnectionType where
  | agent | spectator
deriving DecidableEq

/-- The per-connection metadata stored in the `clients` map.  `address`,
`name` and `type` are optional fields (`undefined` is `none`). -/
structure Client where
  id : String
  isAlive : Bool
  address : Option String
  name : Option String
  type : Option String
  connectionType : ConnectionType
deriving DecidableEq

/-- An entry of the `transactions` history array. -/
inductive TxStatus where
  | completed | pending | failed
deriving DecidableEq

structure TransactionRecord where
  id : String
  timestamp : Nat
  «from» : String
  «to» : String
  amount : Rat
  txHash : String
  status : TxStatus
deriving DecidableEq

/-- Connections are identified by an abstract key (the `WebSocket` object of
the source, which keys the `clients` map). -/
abbrev ConnKey := Nat

/-- All mutable server state: the `clients` map of the hub, the `activeOffers`
map, the `activeInvoices` map of the rules module and the `transactions`
array. -/
structure HubState where
  clients : Table ConnKey Client
  activeOffers : Table String OfferMsg
  activeInvoices : Table String Invoice
  transactions : List TransactionRecord
deriving DecidableEq

def initState : HubState :=
  { clients := [], activeOffers := [], activeInvoices := [], transactions := [] }

/-- A frame sent by the server, tagged with the receiving connection. -/
abbrev Send := ConnKey × AnyMsg

/-- JavaScript truthiness of an optional string: `undefined` and `""` are
falsy. -/
def truthyStr : Option String → Bool
  | none => false
  | some s => !decide (s = "")

/-- `x?.name || fallback` where an empty stored name falls through to the
fallback. -/
def nameOrElse (name : Option String) (fallback : String) : String :=
  match name with
  | some s => if s = "" then fallback else s
  | none => fallback

/-- `generateAgentName`: a pure hash of the address's char codes selects an
adjective and an agent type. -/
def agentTypes : List String :=
  ["Developer", "Designer", "Marketer", "Writer", "Analyst",
   "Consultant", "Strategist", "Researcher", "Engineer", "Artist"]

def adjectives : List String :=
  ["Swift", "Clever", "Bright", "Expert", "Skilled",
   "Creative", "Talented", "Brilliant", "Resourceful", "Innovative"]

def generateAgentName (address : String) : String :=
  let hashValue := address.toList.foldl (fun acc c => acc + c.toNat) 0
  let adjIndex := hashValue % adjectives.length
  let typeIndex := (hashValue * 13) % agentTypes.length
  (adjectives.getD adjIndex "") ++ " " ++ (agentTypes.getD typeIndex "")

/-- `broadcast`: every open connection other than the sender receives the
frame, except that spectators only receive `CHAT`, `OFFER`, `ACCEPT` and
`PAY` frames. -/
def broadcast (clients : Table ConnKey Client) (message : AnyMsg)
    (sender : Option ConnKey) : List Send :=
  clients.filterMap (fun p =>
    if some p.1 ≠ sender then
      if p.2.connectionType = ConnectionType.spectator then
        if message.t = MsgKind.CHAT ∨ message.t = MsgKind.OFFER ∨
            message.t = MsgKind.ACCEPT ∨ message.t = MsgKind.PAY then
          some (p.1, message)
        else none
      else some (p.1, message)
    else none)

/-- `sendToAddress`: walks the client table and delivers to the first *agent*
connection bound to the address (a matching spectator is skipped). -/
def sendToAddress (clients : Table ConnKey Client) (address : String)
    (message : AnyMsg) : List Send :=
  match clients with
  | [] => []
  | (w, c) :: rest =>
    if c.address = some address ∧ c.connectionType = ConnectionType.agent then
      [(w, message)]
    else sendToAddress rest address message

/-- `broadcastToAgents`: every agent connection other than the sender. -/
def broadcastToAgents (clients : Table ConnKey Client) (message : AnyMsg)
    (sender : Option ConnKey) : List Send :=
  clients.filterMap (fun p =>
    if some p.1 ≠ sender ∧ p.2.connectionType = ConnectionType.agent then
      some (p.1, message)
    else none)

/-- The `if (client && !client.address) client.address = msg.from;` pattern
shared by the handlers (`!client.address` also fires on an empty string). -/
def bindAddressIfUnset (clients : Table ConnKey Client) (ws : ConnKey)
    (addr : String) : Table ConnKey Client :=
  match mapGet clients ws with
  | some c =>
    if truthyStr c.address then clients
    else mapSet clients ws { c with address := some addr }
  | none => clients

/-! ## Chat text machinery of the hub (intro regex, address substitution).
These only produce the cosmetic narration text; no claim inspects it, but we
embed them so the handlers below are complete. -/

/-- The character class `[a-fA-F0-9]`. -/
def isHexChar (c : Char) : Bool :=
  (decide ('0' ≤ c) && decide (c ≤ '9')) ||
  (decide ('a' ≤ c) && decide (c ≤ 'f')) ||
  (decide ('A' ≤ c) && decide (c ≤ 'F'))

/-- The character class `[A-Za-z0-9]`. -/
def isAlnumChar (c : Char) : Bool :=
  (decide ('A' ≤ c) && decide (c ≤ 'Z')) ||
  (decide ('a' ≤ c) && decide (c ≤ 'z')) ||
  (decide ('0' ≤ c) && decide (c ≤ '9'))

/-- ASCII `\s` as used on the chat texts. -/
def isWsChar (c : Char) : Bool :=
  decide (c = ' ') || decide (c.toNat = 9) || decide (c.toNat = 10) ||
  decide (c.toNat = 11) || decide (c.toNat = 12) || decide (c.toNat = 13)

/-- All matches of `/0x[a-fA-F0-9]{40}/g`, left to right, non-overlapping. -/
def scanAddresses : List Char → List String
  | [] => []
  | c :: rest =>
    if c = '0' then
      match rest with
      | [] => []
      | x :: rest₂ =>
        if x = 'x' && decide ((rest₂.take 40).length = 40) &&
            (rest₂.take 40).all isHexChar then
          String.mk ('0' :: 'x' :: rest₂.take 40) :: scanAddresses (rest₂.drop 40)
        else scanAddresses (x :: rest₂)
    else scanAddresses rest
termination_by l => l.length
decreasing_by
  all_goals simp [List.length_drop]
  all_goals omega

/-- `text.replace(pat, repl)` with a *string* pattern: first occurrence only. -/
def replaceFirstChars (repl pat : List Char) : List Char → List Char
  | [] => []
  | c :: rest =>
    if pat.isPrefixOf (c :: rest) then repl ++ (c :: rest).drop pat.length
    else c :: replaceFirstChars repl pat rest

def replaceFirst (text pat repl : String) : String :=
  String.mk (replaceFirstChars repl.toList pat.toList text.toList)

/-- The name of the first client bound to `addr` whose stored name is truthy. -/
def findTruthyNameByAddress (clients : Table ConnKey Client) (addr : String) :
    Option String :=
  match clients with
  | [] => none
  | (_, c) :: rest =>
    if c.address = some addr ∧ truthyStr c.name then c.name
    else findTruthyNameByAddress rest addr

/-- The address-to-name substitution of `handleChat` on system messages:
each regex match is replaced (first occurrence each) with the name of a
client bound to it, when one exists. -/
def substituteAddresses (clients : Table ConnKey Client) (text : String) : String :=
  (scanAddresses text.toList).foldl
    (fun t addr =>
      match findTruthyNameByAddress clients addr with
      | some name => replaceFirst t addr name
      | none => t)
    text

/-- First match of `/I'm\s+([A-Za-z0-9]+)/i`: returns the captured group. -/
def introNameAt : List Char → Option String
  | i :: q :: m :: rest =>
    if (i = 'I' || i = 'i') && decide (q.toNat = 39) && (m = 'm' || m = 'M') then
      let afterWs := rest.dropWhile isWsChar
      if decide (afterWs.length < rest.length) then
        let name := afterWs.takeWhile isAlnumChar
        if decide (name ≠ []) then some (String.mk name) else none
      else none
    else none
  | _ => none

def introName : List Char → Option String
  | [] => none
  | c :: rest =>
    match introNameAt (c :: rest) with
    | some n => some n
    | none => introName rest

/-! ## Frame handlers of the hub -/

/-- The first client bound to `addr` (the `for ... of clients.entries()`
lookup loops of the hub). -/
def findClientByAddress (clients : Table ConnKey Client) (addr : String) :
    Option Client :=
  match clients with
  | [] => none
  | (_, c) :: rest =>
    if c.address = some addr then some c else findClientByAddress rest addr

/-- `handleOffer`.  The narration text renders the price with `toString`;
JavaScript number formatting is abstracted by that rendering. -/
def handleOffer (offer : OfferMsg) (ws : ConnKey) (s : HubState) :
    HubState × List Send :=
  if !validateOffer offer then (s, [])
  else
    let client := mapGet s.clients ws
    let clients := bindAddressIfUnset s.clients ws offer.«from»
    let agentName :=
      match client with
      | some c => nameOrElse c.name (generateAgentName offer.«from»)
      | none => generateAgentName offer.«from»
    let s' := { s with
      clients := clients
      activeOffers := mapSet s.activeOffers offer.id offer }
    let spectatorMsg : ChatMsg :=
      { text := agentName ++ " offered " ++ toString offer.price ++
          " for skill: " ++ offer.skill
        «from» := "system" }
    (s', broadcastToAgents clients (AnyMsg.OFFER offer) (some ws) ++
         broadcast clients (AnyMsg.CHAT spectatorMsg) (some ws))

/-- `handleAccept`. -/
def handleAccept (accept : AcceptMsg) (ws : ConnKey) (now : Nat) (s : HubState) :
    HubState × List Send :=
  let offer := mapGet s.activeOffers accept.id
  if !validateAccept accept offer then (s, [])
  else
    let client := mapGet s.clients ws
    let clients := bindAddressIfUnset s.clients ws accept.«from»
    let acceptorName :=
      match client with
      | some c => nameOrElse c.name (generateAgentName accept.«from»)
      | none => generateAgentName accept.«from»
    let offerorName :=
      match offer with
      | some o =>
        match findClientByAddress clients o.«from» with
        | some c => nameOrElse c.name (generateAgentName o.«from»)
        | none => o.«from».take 6 ++ "..."
      | none => "undefined..."
    match offer with
    | none => ({ s with clients := clients }, [])
    | some o =>
      if accept.«from» = o.«from» then ({ s with clients := clients }, [])
      else
        let result := createInvoice o accept.«from» now s.activeInvoices
        let invoice := result.1
        let s' := { s with clients := clients, activeInvoices := result.2 }
        let spectatorMsg : ChatMsg :=
          { text := acceptorName ++ " accepted offer " ++ accept.id ++
              " from " ++ offerorName, «from» := "system" }
        let invoiceMsg : InvoiceMsg :=
          { id := invoice.id, buyer := invoice.buyer, seller := invoice.seller,
            price := invoice.price, skill := invoice.skill, «from» := "system" }
        (s', broadcastToAgents clients (AnyMsg.ACCEPT accept) (some ws) ++
             broadcast clients (AnyMsg.CHAT spectatorMsg) (some ws) ++
             sendToAddress clients invoice.buyer (AnyMsg.INVOICE invoiceMsg) ++
             sendToAddress clients invoice.seller (AnyMsg.INVOICE invoiceMsg))

/-- `handlePayment`. -/
def handlePayment (pay : PayMsg) (ws : ConnKey) (now : Nat) (s : HubState) :
    HubState × List Send :=
  let invoice := mapGet s.activeInvoices pay.id
  if !validatePayment pay invoice then (s, [])
  else
    let clients :=
      match mapGet s.clients ws with
      | some c =>
        if truthyStr c.address then s.clients
        else
          let c₁ := { c with address := some pay.«from» }
          let c₂ :=
            if truthyStr c₁.name then c₁
            else { c₁ with name := some (generateAgentName pay.«from») }
          mapSet s.clients ws c₂
      | none => s.clients
    let payerName :=
      match mapGet clients ws with
      | some c => nameOrElse c.name (generateAgentName pay.«from»)
      | none => generateAgentName pay.«from»
    match invoice with
    | none => ({ s with clients := clients }, [])
    | some inv =>
      let invoices := (completeInvoice s.activeInvoices pay.id).2
      let offers := mapDelete s.activeOffers pay.id
      let txn : TransactionRecord :=
        { id := pay.id
          timestamp := now
          «from» := inv.buyer
          «to» := inv.seller
          amount := inv.price
          txHash := pay.tx
          status := TxStatus.completed }
      let s' := { s with
        clients := clients
        activeInvoices := invoices
        activeOffers := offers
        transactions := s.transactions ++ [txn] }
      let spectatorMsg : ChatMsg :=
        { text := payerName ++ " completed payment for " ++ pay.id ++
            " (tx: " ++ pay.tx.take 8 ++ "...)", «from» := "system" }
      (s', broadcastToAgents clients (AnyMsg.PAY pay) (some ws) ++
           broadcast clients (AnyMsg.CHAT spectatorMsg) (some ws))

/-- The display-name loop of `handleChat`: the first client bound to the
address keeps its truthy name, or is assigned the generated one. -/
def assignNameByAddress : Table ConnKey Client → String → Table ConnKey Client
  | [], _ => []
  | (w, c) :: rest, addr =>
    if c.address = some addr then
      if truthyStr c.name then (w, c) :: rest
      else (w, { c with name := some (generateAgentName addr) }) :: rest
    else (w, c) :: assignNameByAddress rest addr

/-- `handleChat`. -/
def handleChat (chat : ChatMsg) (ws : ConnKey) (s : HubState) :
    HubState × List Send :=
  let clients₁ :=
    if chat.«from» ≠ "system" then bindAddressIfUnset s.clients ws chat.«from»
    else s.clients
  let clients₂ :=
    if chat.«from» ≠ "system" then assignNameByAddress clients₁ chat.«from»
    else clients₁
  let broadcastMessage : ChatMsg :=
    if chat.«from» = "system" then
      { chat with text := substituteAddresses clients₂ chat.text }
    else chat
  ({ s with clients := clients₂ },
   broadcast clients₂ (AnyMsg.CHAT broadcastMessage) (some ws))

/-- `handleMessage`: dispatch on the frame tag; an `INVOICE` from a client
hits the `default:` branch (logged and dropped). -/
def handleMessage (message : AnyMsg) (ws : ConnKey) (now : Nat) (s : HubState) :
    HubState × List Send :=
  match message with
  | .OFFER m => handleOffer m ws s
  | .ACCEPT m => handleAccept m ws now s
  | .PAY m => handlePayment m ws now s
  | .CHAT m => handleChat m ws s
  | .INVOICE _ => (s, [])

def spectatorWarning : AnyMsg :=
  AnyMsg.CHAT { text := "As a spectator, you can only send chat messages.",
                «from» := "system" }

/-- The CHAT pre-processing of the `ws.on('message')` handler applied to the
sender's client record: bind the address if it is falsy, then adopt an
introduction name (`I'm <Name>`) if the stored name is falsy. -/
def chatPreUpdate (c : Client) (chat : ChatMsg) : Client :=
  let c₁ :=
    if truthyStr c.address then c else { c with address := some chat.«from» }
  match introName chat.text.toList with
  | some n => if truthyStr c₁.name then c₁ else { c₁ with name := some n }
  | none => c₁

/-- The `ws.on('message')` handler: the spectator capability check, then the
CHAT pre-processing (address bind, intro-name extraction), then dispatch. -/
def processFrame (s : HubState) (ws : ConnKey) (message : AnyMsg) (now : Nat) :
    HubState × List Send :=
  let client := mapGet s.clients ws
  if (match client with
      | some c => decide (c.connectionType = ConnectionType.spectator)
      | none => false) && !decide (message.t = MsgKind.CHAT) then
    (s, [(ws, spectatorWarning)])
  else
    let s₁ :=
      match message, client with
      | .CHAT chat, some c =>
        if chat.«from» ≠ "system" then
          { s with clients := mapSet s.clients ws (chatPreUpdate c chat) }
        else s
      | _, _ => s
    handleMessage message ws now s₁

/-! ## Connection lifecycle, supervisors and the HTTP side-channel -/

def welcomeText (connectionType : ConnectionType) (id : String) : String :=
  match connectionType with
  | .spectator =>
    "Welcome to the Radius Negotiation Hub! You are connected as a spectator."
  | .agent =>
    "Welcome to the Radius Negotiation Hub! You are agent " ++ id ++ "."

/-- `wss.on('connection')`: register the client and send the role-specific
welcome CHAT. -/
def connectClient (s : HubState) (ws : ConnKey) (connectionType : ConnectionType)
    (providedName : Option String) (id : String) : HubState × List Send :=
  let newClient : Client :=
    { id := id
      isAlive := true
      address := none
      name := providedName
      type := none
      connectionType := connectionType }
  ({ s with clients := mapSet s.clients ws newClient },
   [(ws, AnyMsg.CHAT { text := welcomeText connectionType id, «from» := "system" })])

/-- `ws.on('close')` / `ws.on('error')`: drop the client. -/
def disconnectClient (s : HubState) (ws : ConnKey) : HubState :=
  { s with clients := mapDelete s.clients ws }

/-- The `heartbeat` sweep: evict clients that missed a pong, mark the rest. -/
def heartbeat (s : HubState) : HubState :=
  { s with clients := s.clients.filterMap (fun p =>
      if p.2.isAlive then some (p.1, { p.2 with isAlive := false }) else none) }

/-- `ws.on('pong')`. -/
def pongClient (s : HubState) (ws : ConnKey) : HubState :=
  match mapGet s.clients ws with
  | some c => { s with clients := mapSet s.clients ws { c with isAlive := true } }
  | none => s

/-- The expiry-sweep timer body (`setInterval(cleanupExpiredInvoices, ...)`). -/
def cleanupState (now : Nat) (s : HubState) : HubState :=
  { s with activeInvoices := cleanupExpiredInvoices now s.activeInvoices }

def resetNotice : AnyMsg :=
  AnyMsg.CHAT
    { text := "Negotiation state has been reset. All previous transactions and offers cleared.",
      «from» := "system" }

/-- The `/api/reset` endpoint: clear `transactions` and `activeOffers`, notify
every connected client.  `activeInvoices` lives in the rules module and is not
touched. -/
def resetState (s : HubState) : HubState × List Send :=
  ({ s with transactions := [], activeOffers := [] },
   s.clients.map (fun p => (p.1, resetNotice)))

/-- The states the hub can actually be in: everything generated from the empty
initial state by connections, inbound frames, the two sweeps, resets and
disconnections. -/
inductive Reachable : HubState → Prop where
  | init : Reachable initState
  | connect {s ws connectionType providedName id} : Reachable s →
      Reachable (connectClient s ws connectionType providedName id).1
  | frame {s ws message now} : Reachable s →
      Reachable (processFrame s ws message now).1
  | sweep {s now} : Reachable s → Reachable (cleanupState now s)
  | reset {s} : Reachable s → Reachable (resetState s).1
  | close {s ws} : Reachable s → Reachable (disconnectClient s ws)
  | hb {s} : Reachable s → Reachable (heartbeat s)
  | pong {s ws} : Reachable s → Reachable (pongClient s ws)

/-! ## Predicates used by the statements -/

/-- The connection type of the client registered under `w`. -/
def roleAt (cl : Table ConnKey Client) (w : ConnKey) : Option ConnectionType :=
  (mapGet cl w).map Client.connectionType

/-- How a single client record may change w.r.t. its address during one frame
whose `from` field is `x`: either the address is untouched, or it was falsy
(unset or empty) and is now bound to `x`. -/
def addrOk (x : String) (oldc newc : Option Client) : Prop :=
  newc.map Client.address = oldc.map Client.address ∨
  (∃ c c', oldc = some c ∧ newc = some c' ∧ truthyStr c.address = false ∧
    c'.address = some x)

def clientsEvolve (x : String) (cl cl' : Table ConnKey Client) : Prop :=
  ∀ w, addrOk x (mapGet cl w) (mapGet cl' w)

/-- Every entry of the updated table has an entry for the same connection in
the old table with the same connection type. -/
def entryRoles (cl cl' : Table ConnKey Client) : Prop :=
  ∀ w c', (w, c') ∈ cl' → ∃ c₀, (w, c₀) ∈ cl ∧ c₀.connectionType = c'.connectionType

/-- The frame kinds a spectator connection may be sent. -/
def spectatorKinds (k : MsgKind) : Prop :=
  k = MsgKind.CHAT ∨ k = MsgKind.OFFER ∨ k = MsgKind.ACCEPT ∨ k = MsgKind.PAY

/-- Every invoice in the store has distinct buyer and seller. -/
def buyerNeSeller (s : HubState) : Prop :=
  ∀ q ∈ s.activeInvoices, (q : String × Invoice).2.buyer ≠ q.2.seller

/-! ## Concrete runs used by witnesses and counterexamples -/

def offA : OfferMsg := { id := "o1", price := 1, skill := "x", «from» := "A" }

def offB : OfferMsg := { id := "o1", price := 2, skill := "y", «from» := "B" }

def accB : AcceptMsg := { id := "o1", «from» := "B" }

def accC : AcceptMsg := { id := "o1", «from» := "C" }

def accA : AcceptMsg := { id := "o1", «from» := "A" }

def payA : PayMsg := { id := "o1", tx := "r1", «from» := "A" }

def payB : PayMsg := { id := "o1", tx := "r1", «from» := "B" }

def demo₁ : HubState := (connectClient initState 1 ConnectionType.agent none "c1").1

def demo₂ : HubState := (connectClient demo₁ 2 ConnectionType.agent none "c2").1

def demo₃ : HubState := (connectClient demo₂ 3 ConnectionType.spectator none "c3").1

/-- `demo₃` after a valid OFFER `o1` from address `A` on connection 1. -/
def demoOffered : HubState := (processFrame demo₃ 1 (AnyMsg.OFFER offA) 10).1

/-- `demoOffered` after a valid ACCEPT of `o1` from address `B` on
connection 2. -/
def demoInvoiced : HubState := (processFrame demoOffered 2 (AnyMsg.ACCEPT accB) 20).1

/-! ## Table lemmas -/

theorem mapGet_set_self {κ α : Type} [DecidableEq κ] (m : Table κ α) (k : κ) (v : α) :
    mapGet (mapSet m k v) k = some v := by
  induction m with
  | nil => simp [mapSet, mapGet]
  | cons p rest ih =>
    obtain ⟨k', v'⟩ := p
    by_cases h : k' = k <;> simp [mapSet, mapGet, h, ih]

theorem mapGet_set_ne {κ α : Type} [DecidableEq κ] (m : Table κ α) (k k' : κ) (v : α)
    (h : k' ≠ k) : mapGet (mapSet m k v) k' = mapGet m k' := by
  induction m with
  | nil =>
    simp [mapSet, mapGet]
    exact fun he => h he.symm
  | cons p rest ih =>
    obtain ⟨k₀, v₀⟩ := p
    by_cases h₀ : k₀ = k
    · subst h₀
      have h' : k₀ ≠ k' := fun he => h he.symm
      simp [mapSet, mapGet, h, h']
    · by_cases h₁ : k₀ = k' <;> simp [mapSet, mapGet, h, h₀, h₁, ih]

theorem mapGet_del_self {κ α : Type} [DecidableEq κ] (m : Table κ α) (k : κ) :
    mapGet (mapDelete m k) k = none := by
  induction m with
  | nil => simp [mapDelete, mapGet]
  | cons p rest ih =>
    obtain ⟨k₀, v₀⟩ := p
    by_cases h : k₀ = k <;> simp [mapDelete, mapGet, h] at ih ⊢ <;> exact ih

theorem mapGet_mem {κ α : Type} [DecidableEq κ] {m : Table κ α} {k : κ} {v : α}
    (h : mapGet m k = some v) : (k, v) ∈ m := by
  induction m with
  | nil => simp [mapGet] at h
  | cons p rest ih =>
    obtain ⟨k₀, v₀⟩ := p
    by_cases h₀ : k₀ = k
    · subst h₀
      simp [mapGet] at h
      simp [h]
    · simp [mapGet, h₀] at h
      exact List.mem_cons_of_mem _ (ih h)

theorem mem_mapSet {κ α : Type} [DecidableEq κ] {m : Table κ α} {k : κ} {v : α}
    {p : κ × α} (h : p ∈ mapSet m k v) : p = (k, v) ∨ p ∈ m := by
  induction m with
  | nil => simp [mapSet] at h; simp [h]
  | cons q rest ih =>
    obtain ⟨k₀, v₀⟩ := q
    by_cases h₀ : k₀ = k
    · subst h₀
      simp [mapSet] at h
      rcases h with h | h
      · exact Or.inl h
      · exact Or.inr (List.mem_cons_of_mem _ h)
    · simp [mapSet, h₀] at h
      rcases h with h | h
      · exact Or.inr (by simp [h])
      · rcases ih h with h' | h'
        · exact Or.inl h'
        · exact Or.inr (List.mem_cons_of_mem _ h')

theorem mem_mapDelete {κ α : Type} [DecidableEq κ] {m : Table κ α} {k : κ}
    {p : κ × α} (h : p ∈ mapDelete m k) : p ∈ m := by
  exact List.mem_of_mem_filter h

theorem mem_nodup_get {κ α : Type} [DecidableEq κ] {m : Table κ α} {k : κ} {v : α}
    (hnd : keysNodup m) (h : (k, v) ∈ m) : mapGet m k = some v := by
  induction m with
  | nil => simp at h
  | cons p rest ih =>
    obtain ⟨k₀, v₀⟩ := p
    simp [keysNodup] at hnd
    rcases List.mem_cons.mp h with h | h
    · rw [Prod.ext_iff] at h
      obtain ⟨h1, h2⟩ := h
      simp at h1 h2
      simp [mapGet, h1, h2]
    · have hk : k₀ ≠ k := by
        intro he
        exact hnd.1 v (he.symm ▸ h)
      simp [mapGet, hk]
      exact ih hnd.2 h

theorem keysNodup_set {κ α : Type} [DecidableEq κ] {m : Table κ α} (k : κ) (v : α)
    (hnd : keysNodup m) : keysNodup (mapSet m k v) := by
  induction m with
  | nil => simp [mapSet, keysNodup]
  | cons p rest ih =>
    obtain ⟨k₀, v₀⟩ := p
    simp [keysNodup] at hnd
    by_cases h : k₀ = k
    · subst h
      simp [mapSet, keysNodup]
      exact hnd
    · simp [mapSet, h, keysNodup]
      constructor
      · intro x hx
        rcases mem_mapSet hx with h' | h'
        · rw [Prod.ext_iff] at h'
          exact absurd h'.1 (by simpa using h)
        · exact hnd.1 x h'
      · exact ih hnd.2

theorem keyCount_set {κ α : Type} [DecidableEq κ] (m : Table κ α) (k : κ) (v : α) :
    keyCount (mapSet m k v) k = if keyCount m k = 0 then 1 else keyCount m k := by
  induction m with
  | nil => simp [mapSet, keyCount]
  | cons p rest ih =>
    obtain ⟨k₀, v₀⟩ := p
    by_cases h : k₀ = k
    · subst h
      simp [mapSet, keyCount, List.filter_cons]
    · have hs : mapSet ((k₀, v₀) :: rest) k v = (k₀, v₀) :: mapSet rest k v := by
        simp [mapSet, h]
      have hf : List.filter (fun p => decide (p.1 = k)) ((k₀, v₀) :: rest) =
          List.filter (fun p => decide (p.1 = k)) rest := by
        simp [List.filter_cons, h]
      have hf₂ : List.filter (fun p => decide (p.1 = k)) ((k₀, v₀) :: mapSet rest k v) =
          List.filter (fun p => decide (p.1 = k)) (mapSet rest k v) := by
        simp [List.filter_cons, h]
      rw [hs]
      unfold keyCount at ih ⊢
      rw [hf₂, hf]
      exact ih

/-! ## Shared handler lemmas -/

theorem handlePayment_not_validated {s : HubState} {p : PayMsg} {ws : ConnKey}
    {now : Nat} (h : validatePayment p (mapGet s.activeInvoices p.id) = false) :
    handlePayment p ws now s = (s, []) := by
  simp [handlePayment, h]

/-! ## C3 -/

/-- C3: an invalid PAY (no invoice under the id, wrong payer, or empty
settlement reference) is rejected outright: the handler leaves the whole state
untouched (offers, invoices, transaction log, clients) and sends no reply. -/
theorem C3_invalid_pay_rejected (s : HubState) (p : PayMsg) (ws : ConnKey) (now : Nat)
    (h : mapGet s.activeInvoices p.id = none ∨
      ∃ inv, mapGet s.activeInvoices p.id = some inv ∧
        (p.«from» ≠ inv.buyer ∨ p.tx = "")) :
    handlePayment p ws now s = (s, []) := by
  apply handlePayment_not_validated
  rcases h with h | ⟨inv, hinv, hbad⟩
  · simp [validatePayment, h]
  · rw [hinv]
    by_cases hb : p.«from» = inv.buyer
    · rcases hbad with hbad | hbad
      · exact absurd hb hbad
      · simp [validatePayment, hb, hbad]
    · simp [validatePayment, hb]

/-- Witness for C3: in the demo run the invoice for `o1` has buyer `A`;
a PAY from `B` is dropped with no state change and no reply. -/
theorem C3_invalid_pay_rejected_witness :
    handlePayment payB 2 30 demoInvoiced = (demoInvoiced, []) :=
  C3_invalid_pay_rejected demoInvoiced payB 2 30
    (Or.inr ⟨{ id := "o1", buyer := "A", seller := "B", price := 1, skill := "x",
               timestamp := 20 },
      by decide, Or.inl (by decide)⟩)

/-! ## C6 -/

/-- C6: a frame of any kind other than CHAT from a spectator connection is
answered with exactly one capability-denied notice to the sender, is dropped
before dispatch, and mutates no state. -/
theorem C6_observer_capability_denied (s : HubState) (ws : ConnKey) (msg : AnyMsg)
    (now : Nat) (c : Client) (hc : mapGet s.clients ws = some c)
    (hrole : c.connectionType = ConnectionType.spectator)
    (hkind : msg.t ≠ MsgKind.CHAT) :
    processFrame s ws msg now = (s, [(ws, spectatorWarning)]) := by
  simp [processFrame, hc, hrole, hkind]

/-- Witness for C6: the spectator on connection 3 sending an OFFER gets the
single notice and the state stays as it was. -/
theorem C6_observer_capability_denied_witness :
    processFrame demoOffered 3 (AnyMsg.OFFER offB) 30 =
      (demoOffered, [(3, spectatorWarning)]) :=
  C6_observer_capability_denied demoOffered 3 (AnyMsg.OFFER offB) 30
    { id := "c3", isAlive := true, address := none, name := none, type := none,
      connectionType := ConnectionType.spectator }
    (by decide) rfl (by decide)

/-! ## C8 -/

/-- C8: the expiry sweep keeps exactly the invoices whose age does not exceed
the fixed 10-minute TTL, touches nothing else (in particular appends no
transaction record), and is idempotent at a fixed instant. -/
theorem C8_expiry_sweep (now : Nat) (s : HubState) :
    (∀ id inv, (id, inv) ∈ (cleanupState now s).activeInvoices ↔
      ((id, inv) ∈ s.activeInvoices ∧
        ¬((now : Int) - (inv.timestamp : Int) > (expiryTime : Int)))) ∧
    (cleanupState now s).transactions = s.transactions ∧
    (cleanupState now s).activeOffers = s.activeOffers ∧
    (cleanupState now s).clients = s.clients ∧
    cleanupState now (cleanupState now s) = cleanupState now s := by
  refine ⟨?_, rfl, rfl, rfl, ?_⟩
  · intro id inv
    simp [cleanupState, cleanupExpiredInvoices, List.mem_filter]
  · simp only [cleanupState, cleanupExpiredInvoices]
    congr 1
    rw [List.filter_filter]
    congr 1
    funext q
    rw [Bool.and_self]

/-! ## C10 -/

/-- C10: `/api/reset` empties the transaction log and the open-offer table and
notifies every client, but leaves the invoice table untouched, so a valid PAY
against a pre-reset invoice still settles and appends its transaction
record. -/
theorem C10_reset_preserves_invoices (s : HubState) :
    (resetState s).1.activeInvoices = s.activeInvoices ∧
    (resetState s).1.transactions = [] ∧
    (resetState s).1.activeOffers = [] ∧
    (resetState s).2 = s.clients.map (fun q => (q.1, resetNotice)) ∧
    (∀ (p : PayMsg) (inv : Invoice) (ws : ConnKey) (now : Nat),
      mapGet s.activeInvoices p.id = some inv →
      validatePayment p (some inv) = true →
      (handlePayment p ws now (resetState s).1).1.transactions =
        [{ id := p.id, timestamp := now, «from» := inv.buyer, «to» := inv.seller,
           amount := inv.price, txHash := p.tx, status := TxStatus.completed }]) := by
  refine ⟨rfl, rfl, rfl, rfl, ?_⟩
  intro p inv ws now hinv hval
  simp [handlePayment, resetState, hinv, hval]

/-- Witness for C10: resetting after the demo accept keeps invoice `o1`
alive, and the buyer's PAY afterwards produces exactly its transaction
record. -/
theorem C10_reset_preserves_invoices_witness :
    (handlePayment payA 1 40 (resetState demoInvoiced).1).1.transactions =
      [{ id := "o1", timestamp := 40, «from» := "A", «to» := "B", amount := 1,
         txHash := "r1", status := TxStatus.completed }] :=
  (C10_reset_preserves_invoices demoInvoiced).2.2.2.2 payA
    { id := "o1", buyer := "A", seller := "B", price := 1, skill := "x",
      timestamp := 20 }
    1 40 (by decide) (by decide)

/-! ## C2 -/

/-- C2: a valid PAY settles: exactly one transaction record is appended, with
buyer, seller, amount and settlement reference taken from the invoice and the
frame; both the invoice and the offer under that id are deleted; and an
identical repeated PAY afterwards is rejected with no further record. -/
theorem C2_valid_pay_settles (s : HubState) (p : PayMsg) (ws : ConnKey) (now : Nat)
    (inv : Invoice) (hinv : mapGet s.activeInvoices p.id = some inv)
    (hval : validatePayment p (some inv) = true) :
    (handlePayment p ws now s).1.transactions =
      s.transactions ++
        [{ id := p.id, timestamp := now, «from» := inv.buyer, «to» := inv.seller,
           amount := inv.price, txHash := p.tx, status := TxStatus.completed }] ∧
    mapGet (handlePayment p ws now s).1.activeInvoices p.id = none ∧
    mapGet (handlePayment p ws now s).1.activeOffers p.id = none ∧
    (∀ (ws' : ConnKey) (now' : Nat),
      handlePayment p ws' now' (handlePayment p ws now s).1 =
        ((handlePayment p ws now s).1, [])) := by
  have hinvs : (handlePayment p ws now s).1.activeInvoices =
      mapDelete s.activeInvoices p.id := by
    simp [handlePayment, hinv, hval, completeInvoice]
  have hoffs : (handlePayment p ws now s).1.activeOffers =
      mapDelete s.activeOffers p.id := by
    simp [handlePayment, hinv, hval]
  refine ⟨?_, ?_, ?_, ?_⟩
  · simp [handlePayment, hinv, hval]
  · rw [hinvs]; exact mapGet_del_self _ _
  · rw [hoffs]; exact mapGet_del_self _ _
  · intro ws' now'
    apply handlePayment_not_validated
    rw [hinvs, mapGet_del_self]
    simp [validatePayment]

/-- Witness for C2: the buyer's PAY for the demo invoice appends exactly the
expected record, clears invoice and offer `o1`, and a repeat PAY is a
no-op. -/
theorem C2_valid_pay_settles_witness :
    (handlePayment payA 1 40 demoInvoiced).1.transactions =
      demoInvoiced.transactions ++
        [{ id := "o1", timestamp := 40, «from» := "A", «to» := "B", amount := 1,
           txHash := "r1", status := TxStatus.completed }] ∧
    mapGet (handlePayment payA 1 40 demoInvoiced).1.activeInvoices "o1" = none ∧
    mapGet (handlePayment payA 1 40 demoInvoiced).1.activeOffers "o1" = none ∧
    (∀ (ws' : ConnKey) (now' : Nat),
      handlePayment payA ws' now' (handlePayment payA 1 40 demoInvoiced).1 =
        ((handlePayment payA 1 40 demoInvoiced).1, [])) :=
  C2_valid_pay_settles demoInvoiced payA 1 40
    { id := "o1", buyer := "A", seller := "B", price := 1, skill := "x",
      timestamp := 20 }
    (by decide) (by decide)

/-! ## C1 -/

theorem validateAccept_ne {a : AcceptMsg} {o : OfferMsg}
    (h : validateAccept a (some o) = true) : a.«from» ≠ o.«from» := by
  simp [validateAccept] at h
  intro he
  simp [he] at h

/-- C1 (amended): a valid ACCEPT creates the invoice but does **not** consume
the open offer — `handleAccept` never touches `activeOffers` — and since
`validateAccept` only requires that the offer exist and that the accepter
differ from the offeror, a later ACCEPT for the same id by any party other
than the offeror is accepted as well and replaces the stored invoice. -/
theorem C1_accept_leaves_offer_open (s : HubState) (a : AcceptMsg) (ws : ConnKey)
    (now : Nat) (o : OfferMsg) (ho : mapGet s.activeOffers a.id = some o)
    (hval : validateAccept a (some o) = true) :
    (handleAccept a ws now s).1.activeOffers = s.activeOffers ∧
    mapGet (handleAccept a ws now s).1.activeInvoices o.id =
      some { id := o.id, buyer := o.«from», seller := a.«from», price := o.price,
             skill := o.skill, timestamp := now } ∧
    (∀ (a' : AcceptMsg) (ws' : ConnKey) (now' : Nat), a'.id = a.id →
      a'.«from» ≠ o.«from» →
      mapGet (handleAccept a' ws' now'
          (handleAccept a ws now s).1).1.activeInvoices o.id =
        some { id := o.id, buyer := o.«from», seller := a'.«from»,
               price := o.price, skill := o.skill, timestamp := now' }) := by
  have hne := validateAccept_ne hval
  have hoffs : (handleAccept a ws now s).1.activeOffers = s.activeOffers := by
    simp [handleAccept, ho, hval, hne]
  have hinvs : (handleAccept a ws now s).1.activeInvoices =
      mapSet s.activeInvoices o.id
        { id := o.id, buyer := o.«from», seller := a.«from», price := o.price,
          skill := o.skill, timestamp := now } := by
    simp [handleAccept, ho, hval, hne, createInvoice]
  refine ⟨hoffs, ?_, ?_⟩
  · rw [hinvs]; exact mapGet_set_self _ _ _
  · intro a' ws' now' hid hne'
    obtain ⟨s₁, hs₁⟩ : ∃ s₁, (handleAccept a ws now s).1 = s₁ := ⟨_, rfl⟩
    rw [hs₁]
    have ho' : mapGet s₁.activeOffers a'.id = some o := by
      rw [← hs₁, hoffs, hid, ho]
    have hval' : validateAccept a' (some o) = true := by
      simp [validateAccept, hne']
    have hinvs' : (handleAccept a' ws' now' s₁).1.activeInvoices =
        mapSet s₁.activeInvoices o.id
          { id := o.id, buyer := o.«from», seller := a'.«from», price := o.price,
            skill := o.skill, timestamp := now' } := by
      simp [handleAccept, ho', hval', hne', createInvoice]
    rw [hinvs']
    exact mapGet_set_self _ _ _

/-- Witness for C1 (amended): in the demo run, `B`'s accept invoices `o1`,
the offer stays open, and `C`'s later accept replaces the invoice. -/
theorem C1_accept_leaves_offer_open_witness :
    (handleAccept accB 2 20 demoOffered).1.activeOffers = demoOffered.activeOffers ∧
    mapGet (handleAccept accB 2 20 demoOffered).1.activeInvoices "o1" =
      some { id := "o1", buyer := "A", seller := "B", price := 1, skill := "x",
             timestamp := 20 } ∧
    mapGet (handleAccept accC 2 30
        (handleAccept accB 2 20 demoOffered).1).1.activeInvoices "o1" =
      some { id := "o1", buyer := "A", seller := "C", price := 1, skill := "x",
             timestamp := 30 } := by
  have h := C1_accept_leaves_offer_open demoOffered accB 2 20 offA
    (by decide) (by decide)
  exact ⟨h.1, h.2.1, h.2.2 accC 2 30 (by decide) (by decide)⟩

/-- Counterexample to C1 as stated: after `B`'s valid accept of `o1`, the
later accept of the *same id* by `C` still validates (it is not rejected) and
replaces the stored invoice — the first accept did not consume the offer or
close the id. -/
theorem C1_second_accept_not_rejected :
    validateAccept accC (mapGet demoInvoiced.activeOffers "o1") = true ∧
    mapGet demoInvoiced.activeInvoices "o1" =
      some { id := "o1", buyer := "A", seller := "B", price := 1, skill := "x",
             timestamp := 20 } ∧
    mapGet (processFrame demoInvoiced 2 (AnyMsg.ACCEPT accC) 30).1.activeInvoices "o1" =
      some { id := "o1", buyer := "A", seller := "C", price := 1, skill := "x",
             timestamp := 30 } :=
  ⟨by decide, by decide, by decide⟩

/-! ## C4 -/

theorem keyCount_cons {κ α : Type} [DecidableEq κ] (k₀ : κ) (v₀ : α)
    (rest : Table κ α) (k : κ) :
    keyCount ((k₀, v₀) :: rest) k = (if k₀ = k then 1 else 0) + keyCount rest k := by
  unfold keyCount
  rw [List.filter_cons]
  by_cases h : k₀ = k <;> simp [h, Nat.add_comm]

theorem keyCount_eq_zero_of_not_mem {κ α : Type} [DecidableEq κ]
    {m : Table κ α} {k : κ} (h : ∀ v, (k, v) ∉ m) : keyCount m k = 0 := by
  induction m with
  | nil => simp [keyCount]
  | cons p rest ih =>
    obtain ⟨k₀, v₀⟩ := p
    rw [keyCount_cons]
    have hk : k₀ ≠ k := by
      intro he
      exact h v₀ (by simp [he])
    have hrest : ∀ v, (k, v) ∉ rest := by
      intro v hv
      exact h v (List.mem_cons_of_mem _ hv)
    simp [hk, ih hrest]

theorem keyCount_le_one_of_nodup {κ α : Type} [DecidableEq κ]
    {m : Table κ α} (hnd : keysNodup m) (k : κ) : keyCount m k ≤ 1 := by
  induction m with
  | nil => simp [keyCount]
  | cons p rest ih =>
    obtain ⟨k₀, v₀⟩ := p
    simp [keysNodup] at hnd
    rw [keyCount_cons]
    by_cases h : k₀ = k
    · subst h
      have hz : keyCount rest k₀ = 0 :=
        keyCount_eq_zero_of_not_mem (fun v => hnd.1 v)
      simp [hz]
    · have := ih hnd.2
      simp [h]
      exact this

/-- C4 (amended): after a valid OFFER `o` is handled, exactly one open-offer
entry exists under `o.id`; but a later valid OFFER reusing an id that is
already open *replaces* the stored offer (`Map.set` overwrites) rather than
being rejected. -/
theorem C4_offer_id_reuse_replaces (s : HubState) (o : OfferMsg) (ws : ConnKey)
    (hval : validateOffer o = true) (hrep : keysNodup s.activeOffers) :
    keyCount (handleOffer o ws s).1.activeOffers o.id = 1 ∧
    mapGet (handleOffer o ws s).1.activeOffers o.id = some o := by
  have hoffs : (handleOffer o ws s).1.activeOffers = mapSet s.activeOffers o.id o := by
    simp [handleOffer, hval]
  constructor
  · rw [hoffs, keyCount_set]
    have hle := keyCount_le_one_of_nodup hrep o.id
    by_cases h0 : keyCount s.activeOffers o.id = 0
    · simp [h0]
    · simp [h0]
      omega
  · rw [hoffs]; exact mapGet_set_self _ _ _

/-- Witness for C4 (amended): handling `B`'s offer that reuses the open id
`o1` leaves exactly one entry for `o1`, now storing `B`'s offer. -/
theorem C4_offer_id_reuse_replaces_witness :
    keyCount (handleOffer offB 2 demoOffered).1.activeOffers "o1" = 1 ∧
    mapGet (handleOffer offB 2 demoOffered).1.activeOffers "o1" = some offB :=
  C4_offer_id_reuse_replaces demoOffered offB 2 (by decide) (by decide)

/-- Counterexample to C4 as stated: with `o1` already open (stored offer from
`A`), the later valid OFFER from `B` reusing id `o1` is processed and
*replaces* the open offer stored under that id. -/
theorem C4_duplicate_offer_replaces :
    validateOffer offB = true ∧
    mapGet demoOffered.activeOffers "o1" = some offA ∧
    mapGet (processFrame demoOffered 2 (AnyMsg.OFFER offB) 25).1.activeOffers "o1" =
      some offB ∧
    offB ≠ offA :=
  ⟨by decide, by decide, by decide, by decide⟩

/-! ## Client-table update lemmas -/

theorem roleAt_set {cl : Table ConnKey Client} {k : ConnKey} {c : Client}
    (v : Client) (hget : mapGet cl k = some c)
    (hrole : v.connectionType = c.connectionType) :
    ∀ w, roleAt (mapSet cl k v) w = roleAt cl w := by
  intro w
  by_cases hw : w = k
  · subst hw
    unfold roleAt
    rw [mapGet_set_self, hget]
    simp [hrole]
  · unfold roleAt
    rw [mapGet_set_ne _ _ _ _ hw]

theorem bindAddressIfUnset_eq (cl : Table ConnKey Client) (ws : ConnKey) (x : String) :
    bindAddressIfUnset cl ws x = cl ∨
    ∃ c, mapGet cl ws = some c ∧ truthyStr c.address = false ∧
      bindAddressIfUnset cl ws x = mapSet cl ws { c with address := some x } := by
  unfold bindAddressIfUnset
  rcases h : mapGet cl ws with _ | c
  · left; rfl
  · by_cases ht : truthyStr c.address = true
    · left
      show (if truthyStr c.address = true then cl else _) = cl
      rw [if_pos ht]
    · right
      refine ⟨c, rfl, by simpa using ht, ?_⟩
      show (if truthyStr c.address = true then cl else _) = _
      rw [if_neg ht]

theorem roleAt_bind (cl : Table ConnKey Client) (ws : ConnKey) (x : String) :
    ∀ w, roleAt (bindAddressIfUnset cl ws x) w = roleAt cl w := by
  intro w
  rcases bindAddressIfUnset_eq cl ws x with h | ⟨c, hc, _, h⟩
  · rw [h]
  · rw [h]
    exact roleAt_set { c with address := some x } hc rfl w

theorem keysNodup_bind (cl : Table ConnKey Client) (ws : ConnKey) (x : String)
    (h : keysNodup cl) : keysNodup (bindAddressIfUnset cl ws x) := by
  rcases bindAddressIfUnset_eq cl ws x with he | ⟨c, hc, _, he⟩
  · rw [he]; exact h
  · rw [he]
    exact keysNodup_set _ _ h

theorem mapGet_assign (cl : Table ConnKey Client) (addr : String) (w : ConnKey) :
    mapGet (assignNameByAddress cl addr) w = mapGet cl w ∨
    ∃ c, mapGet cl w = some c ∧
      mapGet (assignNameByAddress cl addr) w =
        some { c with name := some (generateAgentName addr) } := by
  induction cl with
  | nil => left; rfl
  | cons p rest ih =>
    obtain ⟨w₀, c₀⟩ := p
    unfold assignNameByAddress
    by_cases ha : c₀.address = some addr
    · rw [if_pos ha]
      by_cases hn : truthyStr c₀.name = true
      · rw [if_pos hn]
        left; rfl
      · rw [if_neg hn]
        by_cases hw : w₀ = w
        · subst hw
          right
          exact ⟨c₀, by simp [mapGet], by simp [mapGet]⟩
        · left
          simp [mapGet, hw]
    · rw [if_neg ha]
      by_cases hw : w₀ = w
      · subst hw
        left
        simp [mapGet]
      · rcases ih with h | ⟨c, hc, h⟩
        · left
          simp [mapGet, hw, h]
        · right
          exact ⟨c, by simp [mapGet, hw, hc], by simp [mapGet, hw, h]⟩

theorem roleAt_assign (cl : Table ConnKey Client) (addr : String) :
    ∀ w, roleAt (assignNameByAddress cl addr) w = roleAt cl w := by
  intro w
  rcases mapGet_assign cl addr w with h | ⟨c, hc, h⟩
  · unfold roleAt; rw [h]
  · unfold roleAt; rw [h, hc]; rfl

theorem addrAt_assign (cl : Table ConnKey Client) (addr : String) :
    ∀ w, (mapGet (assignNameByAddress cl addr) w).map Client.address =
      (mapGet cl w).map Client.address := by
  intro w
  rcases mapGet_assign cl addr w with h | ⟨c, hc, h⟩
  · rw [h]
  · rw [h, hc]; rfl

theorem keys_assign (cl : Table ConnKey Client) (addr : String) :
    (assignNameByAddress cl addr).map Prod.fst = cl.map Prod.fst := by
  induction cl with
  | nil => rfl
  | cons p rest ih =>
    obtain ⟨w₀, c₀⟩ := p
    unfold assignNameByAddress
    by_cases ha : c₀.address = some addr
    · cases hn : truthyStr c₀.name <;> simp [ha, hn]
    · simp [ha, ih]

theorem keysNodup_assign (cl : Table ConnKey Client) (addr : String)
    (h : keysNodup cl) : keysNodup (assignNameByAddress cl addr) := by
  unfold keysNodup
  rw [keys_assign]
  exact h

theorem clientsEvolve_refl (x : String) (cl : Table ConnKey Client) :
    clientsEvolve x cl cl :=
  fun _ => Or.inl rfl

theorem clientsEvolve_trans {x : String} {cl cl' cl'' : Table ConnKey Client}
    (h1 : clientsEvolve x cl cl') (h2 : clientsEvolve x cl' cl'') :
    clientsEvolve x cl cl'' := by
  intro w
  rcases h1 w with ha | ⟨c, c', he, he', hf, hb⟩
  · rcases h2 w with hb2 | ⟨d, d', hd, hd', hf', hb'⟩
    · exact Or.inl (hb2.trans ha)
    · right
      rcases hget : mapGet cl w with _ | c₀
      · rw [hget, hd] at ha
        simp at ha
      · refine ⟨c₀, d', rfl, hd', ?_, hb'⟩
        rw [hget, hd] at ha
        simp at ha
        rw [← ha]
        exact hf'
  · rcases h2 w with hb2 | ⟨d, d', hd, hd', hf', hb'⟩
    · right
      rcases hget'' : mapGet cl'' w with _ | c''
      · rw [hget'', he'] at hb2
        simp at hb2
      · rw [hget'', he'] at hb2
        simp at hb2
        exact ⟨c, c'', he, rfl, hf, by rw [hb2, hb]⟩
    · right
      exact ⟨c, d', he, hd', hf, hb'⟩

theorem clientsEvolve_set {cl : Table ConnKey Client} {k : ConnKey} {c : Client}
    (v : Client) (x : String) (hget : mapGet cl k = some c)
    (hv : v.address = c.address ∨
      (truthyStr c.address = false ∧ v.address = some x)) :
    clientsEvolve x cl (mapSet cl k v) := by
  intro w
  by_cases hw : w = k
  · subst hw
    unfold addrOk
    rw [mapGet_set_self, hget]
    rcases hv with h | ⟨hf, hb⟩
    · exact Or.inl (by simp [h])
    · exact Or.inr ⟨c, v, rfl, rfl, hf, hb⟩
  · unfold addrOk
    rw [mapGet_set_ne _ _ _ _ hw]
    exact Or.inl rfl

theorem clientsEvolve_bind (cl : Table ConnKey Client) (ws : ConnKey) (x : String) :
    clientsEvolve x cl (bindAddressIfUnset cl ws x) := by
  rcases bindAddressIfUnset_eq cl ws x with he | ⟨c, hc, hf, he⟩
  · rw [he]
    exact clientsEvolve_refl x cl
  · rw [he]
    exact clientsEvolve_set _ x hc (Or.inr ⟨hf, rfl⟩)

theorem clientsEvolve_assign (cl : Table ConnKey Client) (addr x : String) :
    clientsEvolve x cl (assignNameByAddress cl addr) := by
  intro w
  exact Or.inl (addrAt_assign cl addr w)

theorem chatPreUpdate_role (c : Client) (chat : ChatMsg) :
    (chatPreUpdate c chat).connectionType = c.connectionType := by
  unfold chatPreUpdate
  cases ha : truthyStr c.address <;>
    cases hi : introName chat.text.toList <;>
      simp [ha, hi] <;>
        cases hn : truthyStr c.name <;> simp [hn]

theorem chatPreUpdate_addr (c : Client) (chat : ChatMsg) :
    (chatPreUpdate c chat).address = c.address ∨
    (truthyStr c.address = false ∧
      (chatPreUpdate c chat).address = some chat.«from») := by
  unfold chatPreUpdate
  cases ha : truthyStr c.address
  · right
    refine ⟨rfl, ?_⟩
    cases hi : introName chat.text.toList <;> simp [ha, hi] <;>
      cases hn : truthyStr c.name <;> simp [hn]
  · left
    cases hi : introName chat.text.toList <;> simp [ha, hi] <;>
      cases hn : truthyStr c.name <;> simp [hn]

/-- Decomposition of `processFrame`: either the spectator guard fires and
nothing changes, or dispatch happens from an intermediate state `s₁` that
differs from `s` only in the client table, in an address-binding-compatible
way. -/
theorem processFrame_cases (s : HubState) (ws : ConnKey) (msg : AnyMsg) (now : Nat) :
    processFrame s ws msg now = (s, [(ws, spectatorWarning)]) ∨
    ∃ s₁ : HubState,
      s₁.activeOffers = s.activeOffers ∧
      s₁.activeInvoices = s.activeInvoices ∧
      s₁.transactions = s.transactions ∧
      (∀ u, roleAt s₁.clients u = roleAt s.clients u) ∧
      (keysNodup s.clients → keysNodup s₁.clients) ∧
      clientsEvolve msg.sender s.clients s₁.clients ∧
      processFrame s ws msg now = handleMessage msg ws now s₁ := by
  by_cases hguard : ((match mapGet s.clients ws with
      | some c => decide (c.connectionType = ConnectionType.spectator)
      | none => false) && !decide (msg.t = MsgKind.CHAT)) = true
  · left
    unfold processFrame
    rw [if_pos hguard]
  · have generic : processFrame s ws msg now = handleMessage msg ws now s →
        (processFrame s ws msg now = (s, [(ws, spectatorWarning)]) ∨
        ∃ s₁ : HubState,
          s₁.activeOffers = s.activeOffers ∧
          s₁.activeInvoices = s.activeInvoices ∧
          s₁.transactions = s.transactions ∧
          (∀ u, roleAt s₁.clients u = roleAt s.clients u) ∧
          (keysNodup s.clients → keysNodup s₁.clients) ∧
          clientsEvolve msg.sender s.clients s₁.clients ∧
          processFrame s ws msg now = handleMessage msg ws now s₁) := by
      intro h
      exact Or.inr ⟨s, rfl, rfl, rfl, fun u => rfl, id, clientsEvolve_refl _ _, h⟩
    rcases msg with m | m | m | m | m
    · apply generic
      simp only [processFrame]
      rw [if_neg hguard]
    · apply generic
      simp only [processFrame]
      rw [if_neg hguard]
    · apply generic
      simp only [processFrame]
      rw [if_neg hguard]
    · right
      rcases hcl : mapGet s.clients ws with _ | c
      · refine ⟨s, rfl, rfl, rfl, fun u => rfl, id, clientsEvolve_refl _ _, ?_⟩
        simp only [processFrame]
        rw [hcl]
        simp [AnyMsg.t]
      · by_cases hsys : m.«from» = "system"
        · refine ⟨s, rfl, rfl, rfl, fun u => rfl, id, clientsEvolve_refl _ _, ?_⟩
          simp only [processFrame]
          rw [hcl]
          simp [AnyMsg.t, hsys]
        · refine ⟨{ s with clients := mapSet s.clients ws (chatPreUpdate c m) },
            rfl, rfl, rfl, ?_, ?_, ?_, ?_⟩
          · exact roleAt_set _ hcl (chatPreUpdate_role c m)
          · exact fun h => keysNodup_set _ _ h
          · exact clientsEvolve_set _ _ hcl (chatPreUpdate_addr c m)
          · simp only [processFrame]
            rw [hcl]
            simp [AnyMsg.t, hsys]
    · apply generic
      simp only [processFrame]
      rw [if_neg hguard]

/-! ## C5 -/

theorem handleOffer_invoices (o : OfferMsg) (ws : ConnKey) (s : HubState) :
    (handleOffer o ws s).1.activeInvoices = s.activeInvoices := by
  by_cases h : validateOffer o <;> simp [handleOffer, h]

theorem handleChat_invoices (c : ChatMsg) (ws : ConnKey) (s : HubState) :
    (handleChat c ws s).1.activeInvoices = s.activeInvoices := by
  simp [handleChat]

theorem handleAccept_invoices_mem {a : AcceptMsg} {ws : ConnKey} {now : Nat}
    {s : HubState} {q : String × Invoice}
    (hq : q ∈ (handleAccept a ws now s).1.activeInvoices) :
    q ∈ s.activeInvoices ∨ q.2.buyer ≠ q.2.seller := by
  by_cases hv : validateAccept a (mapGet s.activeOffers a.id) = true
  · rcases ho : mapGet s.activeOffers a.id with _ | o
    · rw [ho] at hv
      simp [validateAccept] at hv
    · have hne : a.«from» ≠ o.«from» := validateAccept_ne (ho ▸ hv)
      rw [ho] at hv
      simp [handleAccept, ho, hv, hne, createInvoice] at hq
      rcases mem_mapSet hq with he | hm
      · right
        rw [he]
        simpa using fun hcon => hne hcon.symm
      · exact Or.inl hm
  · rw [Bool.not_eq_true] at hv
    simp [handleAccept, hv] at hq
    exact Or.inl hq

theorem handlePayment_invoices_mem {p : PayMsg} {ws : ConnKey} {now : Nat}
    {s : HubState} {q : String × Invoice}
    (hq : q ∈ (handlePayment p ws now s).1.activeInvoices) :
    q ∈ s.activeInvoices := by
  by_cases hv : validatePayment p (mapGet s.activeInvoices p.id) = true
  · rcases hi : mapGet s.activeInvoices p.id with _ | inv
    · rw [hi] at hv
      simp [validatePayment] at hv
    · rw [hi] at hv
      simp [handlePayment, hi, hv, completeInvoice] at hq
      exact mem_mapDelete hq
  · rw [Bool.not_eq_true] at hv
    simp [handlePayment, hv] at hq
    exact hq

theorem handleMessage_invoices_mem {msg : AnyMsg} {ws : ConnKey} {now : Nat}
    {s₁ : HubState} {q : String × Invoice}
    (hq : q ∈ (handleMessage msg ws now s₁).1.activeInvoices) :
    q ∈ s₁.activeInvoices ∨ q.2.buyer ≠ q.2.seller := by
  rcases msg with m | m | m | m | m
  · rw [show handleMessage (AnyMsg.OFFER m) ws now s₁ = handleOffer m ws s₁ from rfl,
      handleOffer_invoices] at hq
    exact Or.inl hq
  · exact handleAccept_invoices_mem hq
  · exact Or.inl (handlePayment_invoices_mem hq)
  · rw [show handleMessage (AnyMsg.CHAT m) ws now s₁ = handleChat m ws s₁ from rfl,
      handleChat_invoices] at hq
    exact Or.inl hq
  · exact Or.inl hq

theorem processFrame_invoices_mem {s : HubState} {ws : ConnKey} {msg : AnyMsg}
    {now : Nat} {q : String × Invoice}
    (hq : q ∈ (processFrame s ws msg now).1.activeInvoices) :
    q ∈ s.activeInvoices ∨ q.2.buyer ≠ q.2.seller := by
  rcases processFrame_cases s ws msg now with h | ⟨s₁, _, hinv, _, _, _, _, heq⟩
  · rw [h] at hq
    exact Or.inl hq
  · rw [heq] at hq
    rcases handleMessage_invoices_mem hq with h1 | h1
    · rw [hinv] at h1
      exact Or.inl h1
    · exact Or.inr h1

theorem pongClient_invoices (s : HubState) (ws : ConnKey) :
    (pongClient s ws).activeInvoices = s.activeInvoices := by
  unfold pongClient
  rcases hcl : mapGet s.clients ws with _ | c <;> simp [hcl]

/-- Every reachable state satisfies the buyer-is-not-seller invariant. -/
theorem reachable_buyer_ne_seller {s : HubState} (h : Reachable s) :
    buyerNeSeller s := by
  induction h with
  | init => intro q hq; simp [initState] at hq
  | connect _ ih => exact ih
  | frame _ ih =>
    intro q hq
    rcases processFrame_invoices_mem hq with hm | hm
    · exact ih q hm
    · exact hm
  | sweep _ ih =>
    intro q hq
    simp [cleanupState, cleanupExpiredInvoices, List.mem_filter] at hq
    exact ih q hq.1
  | reset _ ih => exact ih
  | close _ ih => exact ih
  | hb _ ih => exact ih
  | pong _ ih =>
    intro q hq
    rw [pongClient_invoices] at hq
    exact ih q hq

/-- C5: a self-ACCEPT (accepter equals offeror) is rejected with no state
change at all, and consequently every invoice present in the store of any
reachable state has buyer distinct from seller. -/
theorem C5_no_self_trade :
    (∀ (s : HubState) (a : AcceptMsg) (ws : ConnKey) (now : Nat) (o : OfferMsg),
      mapGet s.activeOffers a.id = some o → a.«from» = o.«from» →
      handleAccept a ws now s = (s, [])) ∧
    (∀ s : HubState, Reachable s → buyerNeSeller s) := by
  constructor
  · intro s a ws now o ho he
    have hv : validateAccept a (mapGet s.activeOffers a.id) = false := by
      rw [ho]
      simp [validateAccept, he]
    simp [handleAccept, hv]
  · intro s hs
    exact reachable_buyer_ne_seller hs

/-- Witness for C5: `A` accepting their own offer `o1` is a complete no-op,
and the invoice of the reachable demo state has buyer `A` distinct from
seller `B`. -/
theorem C5_no_self_trade_witness :
    handleAccept accA 1 15 demoOffered = (demoOffered, []) ∧
    ("o1", { id := "o1", buyer := "A", seller := "B", price := 1, skill := "x",
             timestamp := 20 }) ∈ demoInvoiced.activeInvoices ∧
    ({ id := "o1", buyer := "A", seller := "B", price := 1, skill := "x",
       timestamp := 20 } : Invoice).buyer ≠
      ({ id := "o1", buyer := "A", seller := "B", price := 1, skill := "x",
         timestamp := 20 } : Invoice).seller := by
  have hreach : Reachable demoInvoiced :=
    Reachable.frame (Reachable.frame (Reachable.connect (Reachable.connect
      (Reachable.connect Reachable.init))))
  refine ⟨C5_no_self_trade.1 demoOffered accA 1 15 offA (by decide) (by decide),
    by decide, ?_⟩
  exact C5_no_self_trade.2 demoInvoiced hreach
    ("o1", { id := "o1", buyer := "A", seller := "B", price := 1, skill := "x",
             timestamp := 20 })
    (by decide)

/-! ## C9 -/

theorem handleOffer_clients (o : OfferMsg) (ws : ConnKey) (s : HubState) :
    (handleOffer o ws s).1.clients = s.clients ∨
    (handleOffer o ws s).1.clients = bindAddressIfUnset s.clients ws o.«from» := by
  by_cases h : validateOffer o = true
  · right
    simp [handleOffer, h]
  · left
    rw [Bool.not_eq_true] at h
    simp [handleOffer, h]

theorem handleAccept_clients (a : AcceptMsg) (ws : ConnKey) (now : Nat) (s : HubState) :
    (handleAccept a ws now s).1.clients = s.clients ∨
    (handleAccept a ws now s).1.clients = bindAddressIfUnset s.clients ws a.«from» := by
  by_cases hv : validateAccept a (mapGet s.activeOffers a.id) = true
  · right
    rcases ho : mapGet s.activeOffers a.id with _ | o
    · rw [ho] at hv
      simp [validateAccept] at hv
    · have hne : a.«from» ≠ o.«from» := validateAccept_ne (ho ▸ hv)
      rw [ho] at hv
      simp [handleAccept, ho, hv, hne]
  · left
    rw [Bool.not_eq_true] at hv
    simp [handleAccept, hv]

theorem handlePayment_clients (p : PayMsg) (ws : ConnKey) (now : Nat) (s : HubState) :
    (handlePayment p ws now s).1.clients = s.clients ∨
    ∃ c c₂, mapGet s.clients ws = some c ∧ truthyStr c.address = false ∧
      c₂.connectionType = c.connectionType ∧ c₂.address = some p.«from» ∧
      (handlePayment p ws now s).1.clients = mapSet s.clients ws c₂ := by
  by_cases hv : validatePayment p (mapGet s.activeInvoices p.id) = true
  · rcases hi : mapGet s.activeInvoices p.id with _ | inv
    · rw [hi] at hv
      simp [validatePayment] at hv
    · rw [hi] at hv
      rcases hc : mapGet s.clients ws with _ | c
      · left
        simp [handlePayment, hi, hv, hc]
      · by_cases ht : truthyStr c.address = true
        · left
          simp [handlePayment, hi, hv, hc, ht]
        · have htf : truthyStr c.address = false := by simpa using ht
          right
          by_cases hn : truthyStr c.name = true
          · refine ⟨c, { c with address := some p.«from» }, rfl, htf, rfl, rfl, ?_⟩
            simp [handlePayment, hi, hv, hc, htf, hn]
          · have hnf : truthyStr c.name = false := by simpa using hn
            refine ⟨c, { c with address := some p.«from», name := some (generateAgentName p.«from») }, rfl, htf, rfl, rfl, ?_⟩
            simp [handlePayment, hi, hv, hc, htf, hnf]
  · left
    rw [Bool.not_eq_true] at hv
    simp [handlePayment, hv]

theorem handleChat_clients (m : ChatMsg) (ws : ConnKey) (s : HubState) :
    (handleChat m ws s).1.clients =
      (if m.«from» = "system" then s.clients
       else assignNameByAddress (bindAddressIfUnset s.clients ws m.«from») m.«from») := by
  by_cases h : m.«from» = "system" <;> simp [handleChat, h]

theorem handleOffer_clientsEvolve (o : OfferMsg) (ws : ConnKey) (s : HubState) :
    clientsEvolve o.«from» s.clients (handleOffer o ws s).1.clients := by
  rcases handleOffer_clients o ws s with hc | hc <;> rw [hc]
  · exact clientsEvolve_refl _ _
  · exact clientsEvolve_bind _ _ _

theorem handleAccept_clientsEvolve (a : AcceptMsg) (ws : ConnKey) (now : Nat)
    (s : HubState) :
    clientsEvolve a.«from» s.clients (handleAccept a ws now s).1.clients := by
  rcases handleAccept_clients a ws now s with hc | hc <;> rw [hc]
  · exact clientsEvolve_refl _ _
  · exact clientsEvolve_bind _ _ _

theorem handlePayment_clientsEvolve (p : PayMsg) (ws : ConnKey) (now : Nat)
    (s : HubState) :
    clientsEvolve p.«from» s.clients (handlePayment p ws now s).1.clients := by
  rcases handlePayment_clients p ws now s with hc | ⟨c, c₂, hc, htf, _, haddr, heq⟩
  · rw [hc]
    exact clientsEvolve_refl _ _
  · rw [heq]
    exact clientsEvolve_set c₂ _ hc (Or.inr ⟨htf, haddr⟩)

theorem handleChat_clientsEvolve (m : ChatMsg) (ws : ConnKey) (s : HubState) :
    clientsEvolve m.«from» s.clients (handleChat m ws s).1.clients := by
  rw [handleChat_clients]
  by_cases hsys : m.«from» = "system"
  · rw [if_pos hsys]
    exact clientsEvolve_refl _ _
  · rw [if_neg hsys]
    exact clientsEvolve_trans (clientsEvolve_bind _ _ _) (clientsEvolve_assign _ _ _)

/-- Master lemma for C9: one processed frame can only evolve each client's
address in the first-write-wins discipline, binding to the frame's `from`. -/
theorem processFrame_clientsEvolve (s : HubState) (ws : ConnKey) (msg : AnyMsg)
    (now : Nat) :
    clientsEvolve msg.sender s.clients (processFrame s ws msg now).1.clients := by
  rcases processFrame_cases s ws msg now with he | ⟨s₁, _, _, _, _, _, hev, heq⟩
  · rw [he]
    exact clientsEvolve_refl _ _
  · rw [heq]
    apply clientsEvolve_trans hev
    rcases msg with m | m | m | m | m
    · exact handleOffer_clientsEvolve m ws s₁
    · exact handleAccept_clientsEvolve m ws now s₁
    · exact handlePayment_clientsEvolve m ws now s₁
    · exact handleChat_clientsEvolve m ws s₁
    · exact clientsEvolve_refl _ _

/-- C9: address binding is first-write-wins.  (a) A truthy (non-empty) bound
address survives any processed frame unchanged.  (b) If a frame changes a
connection's stored address at all, the old address was falsy (unset or
empty, the code's notion of unset) and the new one is the frame's `from`
field. -/
theorem C9_address_first_write_wins :
    (∀ (s : HubState) (ws : ConnKey) (msg : AnyMsg) (now : Nat) (w : ConnKey)
        (c : Client) (a : String),
      mapGet s.clients w = some c → c.address = some a → a ≠ "" →
      ∃ c', mapGet (processFrame s ws msg now).1.clients w = some c' ∧
        c'.address = some a) ∧
    (∀ (s : HubState) (ws : ConnKey) (msg : AnyMsg) (now : Nat) (w : ConnKey)
        (c c' : Client),
      mapGet s.clients w = some c →
      mapGet (processFrame s ws msg now).1.clients w = some c' →
      c'.address ≠ c.address →
      truthyStr c.address = false ∧ c'.address = some msg.sender) := by
  constructor
  · intro s ws msg now w c a hget haddr hne
    rcases processFrame_clientsEvolve s ws msg now w with h | ⟨c₀, c₀', he, he', hf, _⟩
    · rw [hget] at h
      rcases hg' : mapGet (processFrame s ws msg now).1.clients w with _ | c'
      · rw [hg'] at h
        simp at h
      · rw [hg'] at h
        simp at h
        exact ⟨c', rfl, by rw [h, haddr]⟩
    · rw [hget] at he
      have hcc : c = c₀ := by injection he
      rw [← hcc, haddr] at hf
      simp [truthyStr, hne] at hf
  · intro s ws msg now w c c' hget hget' hdiff
    rcases processFrame_clientsEvolve s ws msg now w with h | ⟨c₀, c₀', he, he', hf, hb⟩
    · rw [hget, hget'] at h
      simp at h
      exact absurd h hdiff
    · rw [hget] at he
      rw [hget'] at he'
      have hcc : c = c₀ := by injection he
      have hcc' : c' = c₀' := by injection he'
      rw [← hcc] at hf
      rw [← hcc'] at hb
      exact ⟨hf, hb⟩

/-- Witness for C9: connection 1 is bound to `A` in the demo state; a later
CHAT from `Z` on the same connection leaves the binding at `A`. -/
theorem C9_address_first_write_wins_witness :
    ∃ c', mapGet (processFrame demoOffered 1
        (AnyMsg.CHAT { text := "hi", «from» := "Z" }) 30).1.clients 1 = some c' ∧
      c'.address = some "A" :=
  C9_address_first_write_wins.1 demoOffered 1
    (AnyMsg.CHAT { text := "hi", «from» := "Z" }) 30 1
    { id := "c1", isAlive := true, address := some "A", name := none, type := none,
      connectionType := ConnectionType.agent }
    "A" (by decide) rfl (by decide)

/-! ## C7 -/

theorem mem_broadcast {cl : Table ConnKey Client} {msg : AnyMsg}
    {sender : Option ConnKey} {w : ConnKey} {m : AnyMsg}
    (h : (w, m) ∈ broadcast cl msg sender) : m = msg := by
  unfold broadcast at h
  rcases List.mem_filterMap.mp h with ⟨⟨w₀, c₀⟩, _, hf⟩
  by_cases hs : some w₀ ≠ sender
  · rw [if_pos hs] at hf
    by_cases hrole : c₀.connectionType = ConnectionType.spectator
    · rw [if_pos hrole] at hf
      by_cases hk : msg.t = MsgKind.CHAT ∨ msg.t = MsgKind.OFFER ∨
          msg.t = MsgKind.ACCEPT ∨ msg.t = MsgKind.PAY
      · rw [if_pos hk] at hf
        simp at hf
        exact hf.2.symm
      · rw [if_neg hk] at hf
        simp at hf
    · rw [if_neg hrole] at hf
      simp at hf
      exact hf.2.symm
  · rw [if_neg hs] at hf
    simp at hf

theorem mem_broadcastToAgents {cl : Table ConnKey Client} {msg : AnyMsg}
    {sender : Option ConnKey} {w : ConnKey} {m : AnyMsg}
    (h : (w, m) ∈ broadcastToAgents cl msg sender) :
    m = msg ∧ ∃ c, (w, c) ∈ cl ∧ c.connectionType = ConnectionType.agent := by
  unfold broadcastToAgents at h
  rcases List.mem_filterMap.mp h with ⟨⟨w₀, c₀⟩, hmem, hf⟩
  by_cases hcond : some w₀ ≠ sender ∧ c₀.connectionType = ConnectionType.agent
  · rw [if_pos hcond] at hf
    simp at hf
    refine ⟨hf.2.symm, c₀, ?_, hcond.2⟩
    rw [← hf.1]
    exact hmem
  · rw [if_neg hcond] at hf
    simp at hf

theorem mem_sendToAddress {cl : Table ConnKey Client} {addr : String} {msg : AnyMsg}
    {w : ConnKey} {m : AnyMsg} (h : (w, m) ∈ sendToAddress cl addr msg) :
    m = msg ∧ ∃ c, (w, c) ∈ cl ∧ c.connectionType = ConnectionType.agent := by
  induction cl with
  | nil => simp [sendToAddress] at h
  | cons p rest ih =>
    obtain ⟨w₀, c₀⟩ := p
    unfold sendToAddress at h
    by_cases hcond : c₀.address = some addr ∧ c₀.connectionType = ConnectionType.agent
    · rw [if_pos hcond] at h
      simp at h
      refine ⟨h.2, c₀, ?_, hcond.2⟩
      rw [h.1]
      exact List.mem_cons_self _ _
    · rw [if_neg hcond] at h
      rcases ih h with ⟨h1, c, hc, hrole⟩
      exact ⟨h1, c, List.mem_cons_of_mem _ hc, hrole⟩

/-- If roles are unchanged between `cl₀` and `cl'` and `cl'` has unique keys,
an entry of `cl'` has the connection type recorded for its key in `cl₀`. -/
theorem role_entry_of_get {cl₀ cl' : Table ConnKey Client}
    (hroles : ∀ u, roleAt cl' u = roleAt cl₀ u) (hnd' : keysNodup cl')
    {w : ConnKey} {c₀ c' : Client} (hget₀ : mapGet cl₀ w = some c₀)
    (hc' : (w, c') ∈ cl') : c'.connectionType = c₀.connectionType := by
  have h1 : mapGet cl' w = some c' := mem_nodup_get hnd' hc'
  have h2 := hroles w
  unfold roleAt at h2
  rw [h1, hget₀] at h2
  simpa using h2

theorem handleOffer_sends_spectator {o : OfferMsg} {ws : ConnKey} {s : HubState}
    {w : ConnKey} {m : AnyMsg} {c₀ : Client}
    (hnd : keysNodup s.clients) (hmem : (w, m) ∈ (handleOffer o ws s).2)
    (hget : mapGet s.clients w = some c₀)
    (hrole : c₀.connectionType = ConnectionType.spectator) :
    m.t = MsgKind.CHAT := by
  by_cases hv : validateOffer o = true
  · obtain ⟨cm, hsends⟩ : ∃ cm : ChatMsg, (handleOffer o ws s).2 =
        broadcastToAgents (bindAddressIfUnset s.clients ws o.«from»)
          (AnyMsg.OFFER o) (some ws) ++
        broadcast (bindAddressIfUnset s.clients ws o.«from»)
          (AnyMsg.CHAT cm) (some ws) :=
      ⟨_, by simp [handleOffer, hv]; rfl⟩
    rw [hsends] at hmem
    rcases List.mem_append.mp hmem with h | h
    · rcases mem_broadcastToAgents h with ⟨_, c', hc', hagent⟩
      have hr := role_entry_of_get (roleAt_bind s.clients ws o.«from»)
        (keysNodup_bind _ _ _ hnd) hget hc'
      rw [hagent, hrole] at hr
      exact absurd hr (by decide)
    · rw [mem_broadcast h]
      rfl
  · rw [Bool.not_eq_true] at hv
    simp [handleOffer, hv] at hmem

theorem handleAccept_sends_spectator {a : AcceptMsg} {ws : ConnKey} {now : Nat}
    {s : HubState} {w : ConnKey} {m : AnyMsg} {c₀ : Client}
    (hnd : keysNodup s.clients) (hmem : (w, m) ∈ (handleAccept a ws now s).2)
    (hget : mapGet s.clients w = some c₀)
    (hrole : c₀.connectionType = ConnectionType.spectator) :
    m.t = MsgKind.CHAT := by
  by_cases hv : validateAccept a (mapGet s.activeOffers a.id) = true
  · rcases ho : mapGet s.activeOffers a.id with _ | o
    · rw [ho] at hv
      simp [validateAccept] at hv
    · have hne : a.«from» ≠ o.«from» := validateAccept_ne (ho ▸ hv)
      rw [ho] at hv
      obtain ⟨cm, im₁, im₂, ad₁, ad₂, hsends⟩ :
          ∃ (cm : ChatMsg) (im₁ im₂ : InvoiceMsg) (ad₁ ad₂ : String),
          (handleAccept a ws now s).2 =
            broadcastToAgents (bindAddressIfUnset s.clients ws a.«from»)
              (AnyMsg.ACCEPT a) (some ws) ++
            broadcast (bindAddressIfUnset s.clients ws a.«from»)
              (AnyMsg.CHAT cm) (some ws) ++
            sendToAddress (bindAddressIfUnset s.clients ws a.«from») ad₁
              (AnyMsg.INVOICE im₁) ++
            sendToAddress (bindAddressIfUnset s.clients ws a.«from») ad₂
              (AnyMsg.INVOICE im₂) :=
        ⟨_, _, _, _, _, by simp [handleAccept, ho, hv, hne, createInvoice]; rfl⟩
      rw [hsends] at hmem
      have hroles := roleAt_bind s.clients ws a.«from»
      have hnd' := keysNodup_bind s.clients ws a.«from» hnd
      rcases List.mem_append.mp hmem with h | h
      rcases List.mem_append.mp h with h | h
      rcases List.mem_append.mp h with h | h
      · rcases mem_broadcastToAgents h with ⟨_, c', hc', hagent⟩
        have hr := role_entry_of_get hroles hnd' hget hc'
        rw [hagent, hrole] at hr
        exact absurd hr (by decide)
      · rw [mem_broadcast h]
        rfl
      · rcases mem_sendToAddress h with ⟨_, c', hc', hagent⟩
        have hr := role_entry_of_get hroles hnd' hget hc'
        rw [hagent, hrole] at hr
        exact absurd hr (by decide)
      · rcases mem_sendToAddress h with ⟨_, c', hc', hagent⟩
        have hr := role_entry_of_get hroles hnd' hget hc'
        rw [hagent, hrole] at hr
        exact absurd hr (by decide)
  · rw [Bool.not_eq_true] at hv
    simp [handleAccept, hv] at hmem

theorem handlePayment_sends_spectator {p : PayMsg} {ws : ConnKey} {now : Nat}
    {s : HubState} {w : ConnKey} {m : AnyMsg} {c₀ : Client}
    (hnd : keysNodup s.clients) (hmem : (w, m) ∈ (handlePayment p ws now s).2)
    (hget : mapGet s.clients w = some c₀)
    (hrole : c₀.connectionType = ConnectionType.spectator) :
    m.t = MsgKind.CHAT := by
  by_cases hv : validatePayment p (mapGet s.activeInvoices p.id) = true
  · rcases hi : mapGet s.activeInvoices p.id with _ | inv
    · rw [hi] at hv
      simp [validatePayment] at hv
    · rw [hi] at hv
      obtain ⟨cl', hroles, hnd', cm, hsends⟩ :
          ∃ cl', (∀ u, roleAt cl' u = roleAt s.clients u) ∧ keysNodup cl' ∧
          ∃ cm : ChatMsg, (handlePayment p ws now s).2 =
            broadcastToAgents cl' (AnyMsg.PAY p) (some ws) ++
            broadcast cl' (AnyMsg.CHAT cm) (some ws) := by
        rcases hc : mapGet s.clients ws with _ | c
        · exact ⟨s.clients, fun u => rfl, hnd, _,
            by simp [handlePayment, hi, hv, hc]; rfl⟩
        · by_cases ht : truthyStr c.address = true
          · exact ⟨s.clients, fun u => rfl, hnd, _,
              by simp [handlePayment, hi, hv, hc, ht]; rfl⟩
          · have htf : truthyStr c.address = false := by simpa using ht
            by_cases hn : truthyStr c.name = true
            · exact ⟨mapSet s.clients ws { c with address := some p.«from» },
                roleAt_set _ hc rfl, keysNodup_set _ _ hnd, _,
                by simp [handlePayment, hi, hv, hc, htf, hn]; rfl⟩
            · have hnf : truthyStr c.name = false := by simpa using hn
              exact ⟨mapSet s.clients ws
                { c with address := some p.«from», name := some (generateAgentName p.«from») },
                roleAt_set _ hc rfl, keysNodup_set _ _ hnd, _,
                by simp [handlePayment, hi, hv, hc, htf, hnf]; rfl⟩
      rw [hsends] at hmem
      rcases List.mem_append.mp hmem with h | h
      · rcases mem_broadcastToAgents h with ⟨_, c', hc', hagent⟩
        have hr := role_entry_of_get hroles hnd' hget hc'
        rw [hagent, hrole] at hr
        exact absurd hr (by decide)
      · rw [mem_broadcast h]
        rfl
  · rw [Bool.not_eq_true] at hv
    simp [handlePayment, hv] at hmem

theorem handleChat_sends_spectator {mm : ChatMsg} {ws : ConnKey} {s : HubState}
    {w : ConnKey} {m : AnyMsg}
    (hmem : (w, m) ∈ (handleChat mm ws s).2) : m.t = MsgKind.CHAT := by
  obtain ⟨cl₂, bm, hsends⟩ : ∃ (cl₂ : Table ConnKey Client) (bm : ChatMsg),
      (handleChat mm ws s).2 = broadcast cl₂ (AnyMsg.CHAT bm) (some ws) :=
    ⟨_, _, rfl⟩
  rw [hsends] at hmem
  rw [mem_broadcast hmem]
  rfl

/-- Master lemma for C7: every frame a processed inbound message causes to be
sent to a spectator connection is a CHAT frame. -/
theorem processFrame_sends_spectator {s : HubState} {ws : ConnKey} {msg : AnyMsg}
    {now : Nat} {w : ConnKey} {m : AnyMsg} {c₀ : Client}
    (hnd : keysNodup s.clients) (hmem : (w, m) ∈ (processFrame s ws msg now).2)
    (hget : mapGet s.clients w = some c₀)
    (hrole : c₀.connectionType = ConnectionType.spectator) :
    m.t = MsgKind.CHAT := by
  rcases processFrame_cases s ws msg now with h | ⟨s₁, _, _, _, hroles, hndp, _, heq⟩
  · rw [h] at hmem
    simp at hmem
    rw [hmem.2]
    rfl
  · rw [heq] at hmem
    have hr := hroles w
    unfold roleAt at hr
    rw [hget] at hr
    rcases hg1 : mapGet s₁.clients w with _ | c₁
    · rw [hg1] at hr
      simp at hr
    · rw [hg1] at hr
      simp at hr
      have hrole₁ : c₁.connectionType = ConnectionType.spectator := by
        rw [hr, hrole]
      have hnd₁ := hndp hnd
      rcases msg with mm | mm | mm | mm | mm
      · exact handleOffer_sends_spectator hnd₁ hmem hg1 hrole₁
      · exact handleAccept_sends_spectator hnd₁ hmem hg1 hrole₁
      · exact handlePayment_sends_spectator hnd₁ hmem hg1 hrole₁
      · exact handleChat_sends_spectator hmem
      · simp [handleMessage] at hmem

theorem keysNodup_delete {κ α : Type} [DecidableEq κ] (m : Table κ α) (k : κ)
    (h : keysNodup m) : keysNodup (mapDelete m k) := by
  unfold keysNodup at h ⊢
  unfold mapDelete
  exact List.Nodup.sublist (List.Sublist.map _ (List.filter_sublist _)) h

theorem heartbeat_keys (cl : Table ConnKey Client) :
    ((cl.filterMap (fun p =>
        if p.2.isAlive then some (p.1, { p.2 with isAlive := false })
        else none)).map Prod.fst).Sublist (cl.map Prod.fst) := by
  induction cl with
  | nil => simp
  | cons p rest ih =>
    obtain ⟨w₀, c₀⟩ := p
    rw [List.filterMap_cons]
    cases ha : c₀.isAlive
    · simp only [ha, Bool.false_eq_true, if_false]
      rw [List.map_cons]
      exact List.Sublist.cons _ ih
    · simp only [ha, if_true]
      rw [List.map_cons, List.map_cons]
      exact List.Sublist.cons₂ _ ih

theorem keysNodup_heartbeat (s : HubState) (h : keysNodup s.clients) :
    keysNodup (heartbeat s).clients := by
  unfold keysNodup at h ⊢
  exact List.Nodup.sublist (heartbeat_keys s.clients) h

theorem keysNodup_pong (s : HubState) (ws : ConnKey) (h : keysNodup s.clients) :
    keysNodup (pongClient s ws).clients := by
  unfold pongClient
  rcases hc : mapGet s.clients ws with _ | c
  · exact h
  · exact keysNodup_set _ _ h

theorem processFrame_keysNodup {s : HubState} {ws : ConnKey} {msg : AnyMsg}
    {now : Nat} (h : keysNodup s.clients) :
    keysNodup (processFrame s ws msg now).1.clients := by
  rcases processFrame_cases s ws msg now with he | ⟨s₁, _, _, _, _, hnd₁, _, heq⟩
  · rw [he]
    exact h
  · rw [heq]
    have h₁ := hnd₁ h
    rcases msg with m | m | m | m | m
    · rcases handleOffer_clients m ws s₁ with hc | hc
      · show keysNodup (handleOffer m ws s₁).1.clients
        rw [hc]; exact h₁
      · show keysNodup (handleOffer m ws s₁).1.clients
        rw [hc]; exact keysNodup_bind _ _ _ h₁
    · rcases handleAccept_clients m ws now s₁ with hc | hc
      · show keysNodup (handleAccept m ws now s₁).1.clients
        rw [hc]; exact h₁
      · show keysNodup (handleAccept m ws now s₁).1.clients
        rw [hc]; exact keysNodup_bind _ _ _ h₁
    · rcases handlePayment_clients m ws now s₁ with hc | ⟨c, c₂, _, _, _, _, hc⟩
      · show keysNodup (handlePayment m ws now s₁).1.clients
        rw [hc]; exact h₁
      · show keysNodup (handlePayment m ws now s₁).1.clients
        rw [hc]; exact keysNodup_set _ _ h₁
    · show keysNodup (handleChat m ws s₁).1.clients
      rw [handleChat_clients]
      by_cases hsys : m.«from» = "system"
      · rw [if_pos hsys]; exact h₁
      · rw [if_neg hsys]
        exact keysNodup_assign _ _ (keysNodup_bind _ _ _ h₁)
    · exact h₁

theorem reachable_keysNodup {s : HubState} (h : Reachable s) :
    keysNodup s.clients := by
  induction h with
  | init => simp [initState, keysNodup]
  | connect _ ih => exact keysNodup_set _ _ ih
  | frame _ ih => exact processFrame_keysNodup ih
  | sweep _ ih => exact ih
  | reset _ ih => exact ih
  | close _ ih => exact keysNodup_delete _ _ ih
  | hb _ ih => exact keysNodup_heartbeat _ ih
  | pong _ ih => exact keysNodup_pong _ _ ih

/-- C7: in every reachable state, a spectator connection is never sent an
INVOICE frame by frame processing — every frame it is sent is of one of the
kinds CHAT, OFFER, ACCEPT, PAY (in fact always CHAT) — and the welcome and
reset notifications are CHAT frames for every connection. -/
theorem C7_observer_never_receives_invoice :
    (∀ s : HubState, Reachable s →
      ∀ (ws : ConnKey) (msg : AnyMsg) (now : Nat) (w : ConnKey) (m : AnyMsg)
        (c : Client),
        (w, m) ∈ (processFrame s ws msg now).2 →
        mapGet s.clients w = some c →
        c.connectionType = ConnectionType.spectator →
        m.t ≠ MsgKind.INVOICE ∧ spectatorKinds m.t) ∧
    (∀ (s : HubState) (ws : ConnKey) (connectionType : ConnectionType)
        (providedName : Option String) (id : String) (w : ConnKey) (m : AnyMsg),
      (w, m) ∈ (connectClient s ws connectionType providedName id).2 →
      m.t = MsgKind.CHAT) ∧
    (∀ (s : HubState) (w : ConnKey) (m : AnyMsg),
      (w, m) ∈ (resetState s).2 → m.t = MsgKind.CHAT) := by
  refine ⟨?_, ?_, ?_⟩
  · intro s hs ws msg now w m c hmem hget hrole
    have hchat := processFrame_sends_spectator (reachable_keysNodup hs) hmem hget hrole
    rw [hchat]
    exact ⟨by decide, Or.inl rfl⟩
  · intro s ws connectionType providedName id w m hmem
    simp [connectClient] at hmem
    rw [hmem.2]
    rfl
  · intro s w m hmem
    unfold resetState at hmem
    rcases List.mem_map.mp hmem with ⟨p, _, hp⟩
    have hm : m = resetNotice := by
      have := congrArg Prod.snd hp
      simpa using this.symm
    rw [hm]
    rfl

/-- Witness for C7: in the three-connection demo state, the spectator on
connection 3 receives `B`'s chat as a CHAT frame (never an INVOICE). -/
theorem C7_observer_never_receives_invoice_witness :
    (AnyMsg.CHAT { text := "yo", «from» := "B" }).t ≠ MsgKind.INVOICE ∧
    spectatorKinds (AnyMsg.CHAT { text := "yo", «from» := "B" }).t := by
  have hreach : Reachable demo₃ :=
    Reachable.connect (Reachable.connect (Reachable.connect Reachable.init))
  exact C7_observer_never_receives_invoice.1 demo₃ hreach 2
    (AnyMsg.CHAT { text := "yo", «from» := "B" }) 15 3
    (AnyMsg.CHAT { text := "yo", «from» := "B" })
    { id := "c3", isAlive := true, address := none, name := none, type := none,
      connectionType := ConnectionType.spectator }
    (by decide) (by decide) rfl

end Radius
